import Mathlib

/-!
Shallow embedding of the `eeg_cleaner` log reconciliation engine
(`cleaner/io.py` and `cleaner/applier.py`).

Modelling conventions:
* A directory's `eeg_cleaner.json` is an `Option Logs` (file absent / present);
  every operation returns the final on-disk state alongside its result.
* JSON mappings are association lists `List (String × α)`; `dict.get(k, {})`
  is `lookup` plus `getD {}`.
* The git hash obtained from the external `git describe` process is passed in
  as a `String` parameter.
* Times (`tmin`, `tmax`) and filter frequencies are only ever compared for
  equality by the code, so they are embedded as `Int`.
* `raise ValueError(...)` is `Except.error`; the version-tag mismatch is only
  a warning in the code and has no observable effect here.
-/

/-- Map from filenames to records, as stored under `raws` / `epochs` / `icas`. -/
abbrev RecMap (α : Type) := List (String × α)

/-- A `raws` entry: `{"bads": [...]}` (key may be absent on hand-edited files). -/
structure RawRecord where
  bads : Option (List String) := none
deriving DecidableEq, Repr

/-- The `params` snapshot stored for an epochs record by `_check_epochs_params`. -/
structure EpochsParams where
  tmin : Int
  tmax : Int
  events : List Nat
deriving DecidableEq, Repr

/-- An `epochs` entry: bads, selection, and the immutable params snapshot. -/
structure EpochsRecord where
  bads : Option (List String) := none
  selection : Option (List Nat) := none
  params : Option EpochsParams := none
deriving DecidableEq, Repr

/-- The `params` snapshot stored for an ica record by `_check_ica_params`. -/
structure IcaParams where
  ch_names : List String
  fit_params : List (String × Int)
  n_components : Nat
  highpass : Int
  lowpass : Int
  sfreq : Int
deriving DecidableEq, Repr

/-- An `icas` entry: exclude list and the immutable params snapshot. -/
structure IcaRecord where
  exclude : Option (List Nat) := none
  params : Option IcaParams := none
deriving DecidableEq, Repr

/-- The `config` entry; the code only ever touches `config["version"]`. -/
structure ConfigRec where
  version : String
deriving DecidableEq, Repr

/-- The JSON object in `eeg_cleaner.json`.  Each canonical top-level key may be
absent (`none`); `extra` holds unknown top-level keys (opaque payloads), which
a full-mapping load preserves verbatim. -/
structure Logs where
  raws : Option (RecMap RawRecord) := none
  epochs : Option (RecMap EpochsRecord) := none
  icas : Option (RecMap IcaRecord) := none
  config : Option ConfigRec := none
  extra : List (String × String) := []
deriving DecidableEq, Repr

/-- A segmented (epochs) artifact: the capability surface `update_log` and
`reject` consume from `mne.BaseEpochs`.  `events` is `events[:, 0]` (one onset
sample per current epoch), `selection` the original indices of current epochs,
`drop_log` one entry per original epoch (empty list = still present). -/
structure EpochsInst where
  fname : String
  bads : List String
  tmin : Int
  tmax : Int
  selection : List Nat
  events : List Nat
  drop_log : List (List String)
deriving DecidableEq, Repr

/-- A decomposition (ICA) artifact: the capability surface consumed from
`mne.preprocessing.ICA`. -/
structure IcaInst where
  ch_names : List String
  fit_params : List (String × Int)
  n_components : Nat
  highpass : Int
  lowpass : Int
  sfreq : Int
  exclude : List Nat
deriving DecidableEq, Repr

/-- An artifact handed to `update_log` / `reject`: one constructor per
`isinstance` branch, plus `other` for objects of none of the three types. -/
inductive Inst where
  | raw (fname : String) (bads : List String)
  | epochs (e : EpochsInst)
  | ica (i : IcaInst)
  | other
deriving DecidableEq, Repr

/-- The errors the engine raises (all `ValueError` in the source; the spec
names them `ParameterMismatch(field)`, `InvalidKind`, `MissingLog`). -/
inductive Err where
  | paramMismatch (field : String)
  | invalidKind
  | missingLog
deriving DecidableEq, Repr

/-- Python `dict` lookup on an association list: the value stored under `g`,
if any. -/
def lookupK (g : String) : RecMap α → Option α
  | [] => none
  | (k, v) :: rest => if g = k then some v else lookupK g rest

/-- The Python record-update idiom `t = m.get(k, {}); mutate t; if k not in m:
m[k] = t`.  When `k` is present, `t` aliases the stored dict, so the in-place
mutation has already updated the store and the guard is skipped; when `k` is
absent, the guard inserts the fresh dict.  Net effect: the mapping holds the
mutated record in both cases. -/
def storeBack (m : RecMap α) (k : String) (v : α) : RecMap α :=
  if (lookupK k m).isSome then
    m.map (fun kv => if kv.1 = k then (k, v) else kv)
  else m ++ [(k, v)]

/-- Python `dict` equality on a fit-params mapping: same keys, same values,
order-insensitive. -/
def dictEq (a b : List (String × Int)) : Bool :=
  a.all (fun kv => lookupK kv.1 b == some kv.2) &&
    b.all (fun kv => lookupK kv.1 a == some kv.2)

/-- `np.intersect1d`: the common values of the two lists.  numpy returns them
sorted and unique; only membership in the result is ever used, so the sort is
omitted. -/
def np_intersect1d (a b : List Nat) : List Nat :=
  (a.filter (fun x => decide (x ∈ b))).dedup

/-- The defaulting block shared verbatim by `read_log` and `save_log`: inject
any absent canonical key, and create `config` with the current git hash when
missing (a differing existing version only logs a warning and is kept). -/
def heal (git_hash : String) (logs : Logs) : Logs :=
  { logs with
    raws := some (logs.raws.getD [])
    epochs := some (logs.epochs.getD [])
    icas := some (logs.icas.getD [])
    config := some (logs.config.getD { version := git_hash }) }

/-- `save_log`: re-apply the defaulting block, then write; the result is the
content of the file after the `json.dump`. -/
def save_log (git_hash : String) (logs : Logs) : Logs :=
  heal git_hash logs

/-- `read_log`: load the file if it exists (else start from `{}`), inject the
missing keys, and persist the healed structure back before returning it.
Returns `(the logs returned to the caller, the final on-disk state)`. -/
def read_log (git_hash : String) (disk : Option Logs) : Logs × Option Logs :=
  let logs := heal git_hash (disk.getD {})
  (logs, some (save_log git_hash logs))

/-- The events subset test of `_check_epochs_params` (its `inter`, `to_check`
and `all(x in prev_events for x in to_check)` lines): `true` when every current
onset whose original index lies in the intersection of the current and stored
selections appears in the snapshot's event list.  `to_check` is the source's
`[this_events[i] for i, x in enumerate(this_selection) if x in inter]` with
positional indexing rendered through `getD` (indices stay in range). -/
def eventsCheckB (e : EpochsInst) (t : EpochsRecord) (p : EpochsParams) : Bool :=
  let this_selection := e.selection
  let prev_selection := t.selection.getD (List.range e.selection.length)
  let inter := np_intersect1d this_selection prev_selection
  let this_events := e.events
  let to_check := (List.range this_selection.length).filterMap
    (fun i => if decide (this_selection.getD i 0 ∈ inter)
              then some (this_events.getD i 0) else none)
  to_check.all (fun x => decide (x ∈ p.events))

/-- `_check_epochs_params`.  With no stored snapshot, captures one from the
artifact (the source mutates `t_log` in place; here the updated record is
returned).  With a snapshot, `tmin`/`tmax` must agree exactly and the events
subset test must pass. -/
def check_epochs_params (e : EpochsInst) (t : EpochsRecord) :
    Except Err EpochsRecord :=
  match t.params with
  | none =>
    Except.ok { t with params := some { tmin := e.tmin, tmax := e.tmax, events := e.events } }
  | some p =>
    if e.tmin ≠ p.tmin then Except.error (Err.paramMismatch "tmin")
    else if e.tmax ≠ p.tmax then Except.error (Err.paramMismatch "tmax")
    else if eventsCheckB e t p then Except.ok t
    else Except.error (Err.paramMismatch "events")

/-- `_check_ica_params`: snapshot the six fields on first encounter, otherwise
require field-by-field equality in source order. -/
def check_ica_params (i : IcaInst) (t : IcaRecord) : Except Err IcaRecord :=
  match t.params with
  | none =>
    Except.ok { t with params := some {
      ch_names := i.ch_names, fit_params := i.fit_params,
      n_components := i.n_components, highpass := i.highpass,
      lowpass := i.lowpass, sfreq := i.sfreq } }
  | some p =>
    if i.ch_names ≠ p.ch_names then Except.error (Err.paramMismatch "ch_names")
    else if dictEq i.fit_params p.fit_params = false then
      Except.error (Err.paramMismatch "fit_params")
    else if i.n_components ≠ p.n_components then
      Except.error (Err.paramMismatch "n_components")
    else if i.highpass ≠ p.highpass then Except.error (Err.paramMismatch "highpass")
    else if i.lowpass ≠ p.lowpass then Except.error (Err.paramMismatch "lowpass")
    else if i.sfreq ≠ p.sfreq then Except.error (Err.paramMismatch "sfreq")
    else Except.ok t

/-- The `reject` loop over `enumerate(inst.drop_log)`: among entries with an
empty drop log (counted by `cur_idx`), collect the running position of every
original index in `to_drop`. -/
def computeDropIdx : List (List String) → List Nat → Nat → Nat → List Nat
  | [], _, _, _ => []
  | dlog :: rest, to_drop, i_epoch, cur_idx =>
    if dlog.length = 0 then
      (if i_epoch ∈ to_drop then [cur_idx] else []) ++
        computeDropIdx rest to_drop (i_epoch + 1) (cur_idx + 1)
    else computeDropIdx rest to_drop (i_epoch + 1) cur_idx

/-- Values of a list at the positions NOT listed in `ps` (`p` is the running
position of the head). -/
def dropSel : List Nat → List Nat → Nat → List Nat
  | [], _, _ => []
  | x :: rest, ps, p =>
    if p ∈ ps then dropSel rest ps (p + 1) else x :: dropSel rest ps (p + 1)

/-- Values of a list at the positions listed in `ps`. -/
def selAt : List Nat → List Nat → Nat → List Nat
  | [], _, _ => []
  | x :: rest, ps, p =>
    if p ∈ ps then x :: selAt rest ps (p + 1) else selAt rest ps (p + 1)

/-- Overwrite the drop-log entries at the original indices in `dropped` with
the reason tag (`i` is the running original index of the head). -/
def markLog : List (List String) → List Nat → String → Nat → List (List String)
  | [], _, _, _ => []
  | d :: rest, dropped, reason, i =>
    (if i ∈ dropped then [reason] else d) :: markLog rest dropped reason (i + 1)

/-- Modelled from the spec: the segmented-artifact capability "the ability to
drop segments by position with an attached reason tag" supplied by the
excluded collaborator (`mne.BaseEpochs.drop`).  The epochs at the given
current positions are removed from `selection`/`events` and their drop-log
entries (at their original indices) are set to the reason tag. -/
def EpochsInst.drop (e : EpochsInst) (ps : List Nat) (reason : String) : EpochsInst :=
  { e with
    selection := dropSel e.selection ps 0
    events := dropSel e.events ps 0
    drop_log := markLog e.drop_log (selAt e.selection ps 0) reason 0 }

/-- Original indices whose drop-log entry is empty, in order (`i` is the
running index of the head). -/
def emptyIdx : List (List String) → Nat → List Nat
  | [], _ => []
  | d :: rest, i =>
    if d.length = 0 then i :: emptyIdx rest (i + 1) else emptyIdx rest (i + 1)

/-- Modelled from the spec: the consistency the collaborator guarantees
between a segmented artifact's fields — `selection` lists exactly the original
indices with an empty drop-log entry, and there is one event row per current
epoch. -/
def EpochsInst.WF (e : EpochsInst) : Prop :=
  e.selection = emptyIdx e.drop_log 0 ∧ e.events.length = e.selection.length

instance (e : EpochsInst) : Decidable e.WF := by
  unfold EpochsInst.WF; infer_instance

/-- `update_log`: read (and thereby persist) the log, fold the artifact's
reviewed decisions into its kind's mapping, and save.  `path_name` is
`path.name`, used as the filename for ICA artifacts.  Returns the call's
outcome and the final on-disk state (on an exception the file keeps what
`read_log` already wrote). -/
def update_log (git_hash : String) (path_name : String) (disk : Option Logs)
    (inst : Inst) : Except Err Unit × Option Logs :=
  let r := read_log git_hash disk
  let logs := r.1
  match inst with
  | Inst.raw fname bads =>
    let t_log := (lookupK fname (logs.raws.getD [])).getD {}
    let t_log := { t_log with bads := some bads }
    let logs := { logs with raws := some (storeBack (logs.raws.getD []) fname t_log) }
    (Except.ok (), some (save_log git_hash logs))
  | Inst.epochs e =>
    let m := logs.epochs.getD []
    let t_log := (lookupK e.fname m).getD {}
    match check_epochs_params e t_log with
    | Except.error err => (Except.error err, r.2)
    | Except.ok t_log =>
      let t_log := { t_log with bads := some e.bads, selection := some e.selection }
      -- the source also derives the positions dropped for reason
      -- "Inspection"/"USER" here, but only logs them; nothing is persisted
      let logs := { logs with epochs := some (storeBack m e.fname t_log) }
      (Except.ok (), some (save_log git_hash logs))
  | Inst.ica i =>
    let m := logs.icas.getD []
    let t_log := (lookupK path_name m).getD {}
    match check_ica_params i t_log with
    | Except.error err => (Except.error err, r.2)
    | Except.ok t_log =>
      let t_log := { t_log with exclude := some i.exclude }
      let logs := { logs with icas := some (storeBack m path_name t_log) }
      (Except.ok (), some (save_log git_hash logs))
  | Inst.other => (Except.ok (), some (save_log git_hash logs))

/-- `reject` (`Reconciler.apply`): reapply the stored decisions onto the
artifact.  Returns the (possibly mutated) artifact and the final on-disk
state. -/
def reject (git_hash : String) (path_name : String) (disk : Option Logs)
    (inst : Inst) (required : Bool) : Except Err Inst × Option Logs :=
  if disk.isNone && required then (Except.error Err.missingLog, disk)
  else
    let r := read_log git_hash disk
    let logs := r.1
    match inst with
    | Inst.raw fname bads =>
      let t_log := (lookupK fname (logs.raws.getD [])).getD {}
      let old_bads := t_log.bads.getD []
      -- list(set(old_bads + inst.info["bads"])); Python's set order is
      -- unspecified, `dedup` picks one representative ordering
      let mix_bads := (old_bads ++ bads).dedup
      (Except.ok (Inst.raw fname mix_bads), r.2)
    | Inst.epochs e =>
      let t_log := (lookupK e.fname (logs.epochs.getD [])).getD {}
      match check_epochs_params e t_log with
      | Except.error err => (Except.error err, r.2)
      | Except.ok t_log =>
        let old_bads := t_log.bads.getD []
        let mix_bads := (old_bads ++ e.bads).dedup
        let e := { e with bads := mix_bads }
        let prev_selection := t_log.selection.getD e.selection
        let to_drop := e.selection.filter (fun x => decide (x ∉ prev_selection))
        let drop_idx := computeDropIdx e.drop_log to_drop 0 0
        (Except.ok (Inst.epochs (e.drop drop_idx "Inspection")), r.2)
    | Inst.ica i =>
      let t_log := (lookupK path_name (logs.icas.getD [])).getD {}
      match check_ica_params i t_log with
      | Except.error err => (Except.error err, r.2)
      | Except.ok t_log =>
        (Except.ok (Inst.ica { i with exclude := t_log.exclude.getD [] }), r.2)
    | Inst.other => (Except.ok inst, r.2)

/-- `is_cleaned`: validate the kind, report not-cleaned when no file exists,
otherwise `read_log` (which re-persists) and test whether the filename has an
entry under the kind's mapping. -/
def is_cleaned (git_hash : String) (disk : Option Logs) (path_name : String)
    (kind : String) : Except Err Bool × Option Logs :=
  if kind ∉ ["raws", "epochs", "icas"] then (Except.error Err.invalidKind, disk)
  else if disk.isNone then (Except.ok false, disk)
  else
    let r := read_log git_hash disk
    let logs := r.1
    let present :=
      if kind = "raws" then (lookupK path_name (logs.raws.getD [])).isSome
      else if kind = "epochs" then (lookupK path_name (logs.epochs.getD [])).isSome
      else (lookupK path_name (logs.icas.getD [])).isSome
    (Except.ok present, r.2)

/-- The `raws` mapping of an on-disk state (empty when absent). -/
def rawsMap (d : Option Logs) : RecMap RawRecord := (d.getD {}).raws.getD []

/-- The `epochs` mapping of an on-disk state (empty when absent). -/
def epochsMap (d : Option Logs) : RecMap EpochsRecord := (d.getD {}).epochs.getD []

/-- The `icas` mapping of an on-disk state (empty when absent). -/
def icasMap (d : Option Logs) : RecMap IcaRecord := (d.getD {}).icas.getD []

/-- The stored bad-channel list for a raw filename (empty when absent). -/
def storedBads (d : Option Logs) (f : String) : List String :=
  ((lookupK f (rawsMap d)).getD {}).bads.getD []

/-- The stored epochs params snapshot for a filename, if any. -/
def epochsParamsAt (d : Option Logs) (f : String) : Option EpochsParams :=
  (lookupK f (epochsMap d)).bind (fun t => t.params)

/-- The stored ica params snapshot for a filename, if any. -/
def icaParamsAt (d : Option Logs) (f : String) : Option IcaParams :=
  (lookupK f (icasMap d)).bind (fun t => t.params)

/-- Claim-level reading of the events subset rule: for every position of the
current selection whose original index also lies in the stored selection (all
current positions when none is stored), the onset sample at that position
appears in the snapshot's event list. -/
def eventsOkP (e : EpochsInst) (t : EpochsRecord) (p : EpochsParams) : Prop :=
  ∀ i ∈ List.range e.selection.length,
    e.selection.getD i 0 ∈ t.selection.getD (List.range e.selection.length) →
    e.events.getD i 0 ∈ p.events

instance (e : EpochsInst) (t : EpochsRecord) (p : EpochsParams) :
    Decidable (eventsOkP e t p) := by
  unfold eventsOkP; infer_instance

/-- The artifact agrees with a stored epochs snapshot on every checked field
(`tmin`, `tmax`, and the events subset rule). -/
def epochsAgrees (e : EpochsInst) (t : EpochsRecord) (p : EpochsParams) : Prop :=
  e.tmin = p.tmin ∧ e.tmax = p.tmax ∧ eventsOkP e t p

instance (e : EpochsInst) (t : EpochsRecord) (p : EpochsParams) :
    Decidable (epochsAgrees e t p) := by
  unfold epochsAgrees; infer_instance

/-- The artifact agrees with a stored ica snapshot on all six checked fields. -/
def icaAgrees (i : IcaInst) (p : IcaParams) : Prop :=
  i.ch_names = p.ch_names ∧ dictEq i.fit_params p.fit_params = true ∧
    i.n_components = p.n_components ∧ i.highpass = p.highpass ∧
    i.lowpass = p.lowpass ∧ i.sfreq = p.sfreq

instance (i : IcaInst) (p : IcaParams) : Decidable (icaAgrees i p) := by
  unfold icaAgrees; infer_instance

theorem lookupK_cons {α : Type} (g a : String) (b : α) (rest : RecMap α) :
    lookupK g ((a, b) :: rest) = if g = a then some b else lookupK g rest := rfl

theorem lookupK_replace_ne {α : Type} (m : RecMap α) (k g : String) (v : α)
    (h : g ≠ k) :
    lookupK g (m.map (fun kv => if kv.1 = k then (k, v) else kv)) = lookupK g m := by
  induction m with
  | nil => rfl
  | cons kv rest ih =>
    obtain ⟨a, b⟩ := kv
    simp only [List.map_cons]
    by_cases hak : a = k
    · subst hak
      rw [show (if a = a then (a, v) else (a, b)) = (a, v) from if_pos rfl,
        lookupK_cons, lookupK_cons, if_neg h, if_neg h, ih]
    · rw [show (if a = k then (k, v) else (a, b)) = (a, b) from if_neg hak,
        lookupK_cons, lookupK_cons, ih]

theorem lookupK_replace_eq {α : Type} (m : RecMap α) (k : String) (v : α)
    (hk : (lookupK k m).isSome) :
    lookupK k (m.map (fun kv => if kv.1 = k then (k, v) else kv)) = some v := by
  induction m with
  | nil => simp [lookupK] at hk
  | cons kv rest ih =>
    obtain ⟨a, b⟩ := kv
    simp only [List.map_cons]
    by_cases hak : a = k
    · subst hak
      rw [show (if a = a then (a, v) else (a, b)) = (a, v) from if_pos rfl,
        lookupK_cons, if_pos rfl]
    · have hka : k ≠ a := fun hh => hak hh.symm
      rw [lookupK_cons, if_neg hka] at hk
      rw [show (if a = k then (k, v) else (a, b)) = (a, b) from if_neg hak,
        lookupK_cons, if_neg hka, ih hk]

theorem lookupK_append {α : Type} (m₁ m₂ : RecMap α) (g : String) :
    lookupK g (m₁ ++ m₂) =
      if (lookupK g m₁).isSome then lookupK g m₁ else lookupK g m₂ := by
  induction m₁ with
  | nil => simp [lookupK]
  | cons kv rest ih =>
    obtain ⟨a, b⟩ := kv
    by_cases hg : g = a <;> simp [lookupK, hg, ih]

/-- The one stored-map lemma: after `storeBack`, the updated key holds the new
record and every other key is untouched. -/
theorem lookupK_storeBack {α : Type} (m : RecMap α) (k g : String) (v : α) :
    lookupK g (storeBack m k v) = if g = k then some v else lookupK g m := by
  unfold storeBack
  by_cases hk : (lookupK k m).isSome
  · rw [if_pos hk]
    by_cases hg : g = k
    · subst hg; rw [if_pos rfl, lookupK_replace_eq m g v hk]
    · rw [if_neg hg, lookupK_replace_ne m k g v hg]
  · rw [if_neg hk, lookupK_append]
    by_cases hg : g = k
    · subst hg
      have hnone : lookupK g m = none := by
        cases h : lookupK g m with
        | none => rfl
        | some x => rw [h] at hk; simp at hk
      simp [hnone, lookupK]
    · cases h : lookupK g m with
      | none => simp [h, lookupK, hg]
      | some x => simp [h, hg]

theorem heal_heal (git : String) (l : Logs) : heal git (heal git l) = heal git l := by
  simp [heal]

theorem read_log_snd (git : String) (d : Option Logs) :
    (read_log git d).2 = some (heal git (d.getD {})) := by
  simp [read_log, save_log, heal_heal]

theorem rawsMap_healDisk (git : String) (d : Option Logs) :
    rawsMap (some (heal git (d.getD {}))) = rawsMap d := by
  cases d <;> simp [rawsMap, heal]

theorem epochsMap_healDisk (git : String) (d : Option Logs) :
    epochsMap (some (heal git (d.getD {}))) = epochsMap d := by
  cases d <;> simp [epochsMap, heal]

theorem icasMap_healDisk (git : String) (d : Option Logs) :
    icasMap (some (heal git (d.getD {}))) = icasMap d := by
  cases d <;> simp [icasMap, heal]

theorem mem_intersect1d {a b : List Nat} {x : Nat} :
    x ∈ np_intersect1d a b ↔ x ∈ a ∧ x ∈ b := by
  simp [np_intersect1d, List.mem_dedup, List.mem_filter]

theorem getD_mem_of_lt {l : List Nat} {i : Nat} (h : i < l.length) (d : Nat) :
    l.getD i d ∈ l := by
  rw [List.getD_eq_getElem l d h]
  exact List.getElem_mem h

theorem eventsCheckB_iff (e : EpochsInst) (t : EpochsRecord) (p : EpochsParams) :
    eventsCheckB e t p = true ↔ eventsOkP e t p := by
  unfold eventsCheckB eventsOkP
  simp only [List.all_eq_true, List.mem_filterMap, List.mem_range,
    decide_eq_true_eq, forall_exists_index, and_imp]
  constructor
  · intro h i hi hsel
    refine h (e.events.getD i 0) i hi ?_
    rw [if_pos (mem_intersect1d.mpr ⟨getD_mem_of_lt hi 0, hsel⟩)]
  · intro h x i hi hf
    by_cases hc : e.selection.getD i 0 ∈
        np_intersect1d e.selection (t.selection.getD (List.range e.selection.length))
    · rw [if_pos hc] at hf
      cases hf
      exact h i hi (mem_intersect1d.mp hc).2
    · rw [if_neg hc] at hf
      cases hf

theorem check_epochs_none (e : EpochsInst) (t : EpochsRecord) (hp : t.params = none) :
    check_epochs_params e t = Except.ok
      { t with params := some { tmin := e.tmin, tmax := e.tmax, events := e.events } } := by
  unfold check_epochs_params
  rw [hp]

theorem check_epochs_some (e : EpochsInst) (t : EpochsRecord) (p : EpochsParams)
    (hp : t.params = some p) :
    check_epochs_params e t =
      (if e.tmin ≠ p.tmin then Except.error (Err.paramMismatch "tmin")
       else if e.tmax ≠ p.tmax then Except.error (Err.paramMismatch "tmax")
       else if eventsCheckB e t p then Except.ok t
       else Except.error (Err.paramMismatch "events")) := by
  unfold check_epochs_params
  rw [hp]

theorem check_epochs_ok_iff (e : EpochsInst) (t : EpochsRecord) (p : EpochsParams)
    (hp : t.params = some p) :
    check_epochs_params e t = Except.ok t ↔ epochsAgrees e t p := by
  rw [check_epochs_some e t p hp]
  unfold epochsAgrees
  split_ifs with h1 h2 h3
  · simp [h1]
  · simp [h2]
  · simp [not_not.mp (by exact h1), not_not.mp (by exact h2), (eventsCheckB_iff e t p).mp h3]
  · constructor
    · intro h; cases h
    · intro ⟨_, _, hok⟩
      exact absurd ((eventsCheckB_iff e t p).mpr hok) (by simpa using h3)

theorem check_epochs_err_iff (e : EpochsInst) (t : EpochsRecord) (p : EpochsParams)
    (hp : t.params = some p) :
    (∃ f, check_epochs_params e t = Except.error (Err.paramMismatch f)) ↔
      ¬ epochsAgrees e t p := by
  rw [check_epochs_some e t p hp]
  unfold epochsAgrees
  split_ifs with h1 h2 h3
  · simp [h1]
  · simp [h2]
  · constructor
    · intro ⟨f, hf⟩; cases hf
    · intro h
      exact absurd ⟨not_not.mp (by exact h1), not_not.mp (by exact h2),
        (eventsCheckB_iff e t p).mp h3⟩ h
  · constructor
    · intro _
      intro ⟨_, _, hok⟩
      exact absurd ((eventsCheckB_iff e t p).mpr hok) (by simpa using h3)
    · intro _; exact ⟨"events", rfl⟩

theorem check_epochs_ok_shape (e : EpochsInst) (t r : EpochsRecord)
    (h : check_epochs_params e t = Except.ok r) :
    r.bads = t.bads ∧ r.selection = t.selection ∧
      (∀ p, t.params = some p → r = t) := by
  cases hp : t.params with
  | none =>
    rw [check_epochs_none e t hp] at h
    cases h
    exact ⟨rfl, rfl, fun p hc => by simp [hp] at hc⟩
  | some p =>
    rw [check_epochs_some e t p hp] at h
    split_ifs at h
    cases h
    exact ⟨rfl, rfl, fun _ _ => rfl⟩

theorem check_ica_none (i : IcaInst) (t : IcaRecord) (hp : t.params = none) :
    check_ica_params i t = Except.ok { t with params := some {
      ch_names := i.ch_names, fit_params := i.fit_params,
      n_components := i.n_components, highpass := i.highpass,
      lowpass := i.lowpass, sfreq := i.sfreq } } := by
  unfold check_ica_params
  rw [hp]

theorem check_ica_some (i : IcaInst) (t : IcaRecord) (p : IcaParams)
    (hp : t.params = some p) :
    check_ica_params i t =
      (if i.ch_names ≠ p.ch_names then Except.error (Err.paramMismatch "ch_names")
       else if dictEq i.fit_params p.fit_params = false then
         Except.error (Err.paramMismatch "fit_params")
       else if i.n_components ≠ p.n_components then
         Except.error (Err.paramMismatch "n_components")
       else if i.highpass ≠ p.highpass then Except.error (Err.paramMismatch "highpass")
       else if i.lowpass ≠ p.lowpass then Except.error (Err.paramMismatch "lowpass")
       else if i.sfreq ≠ p.sfreq then Except.error (Err.paramMismatch "sfreq")
       else Except.ok t) := by
  unfold check_ica_params
  rw [hp]

theorem bool_true_of_not_false {b : Bool} (h : ¬ b = false) : b = true := by
  cases b
  · exact absurd rfl h
  · rfl

theorem check_ica_ok_iff (i : IcaInst) (t : IcaRecord) (p : IcaParams)
    (hp : t.params = some p) :
    check_ica_params i t = Except.ok t ↔ icaAgrees i p := by
  rw [check_ica_some i t p hp]
  unfold icaAgrees
  split_ifs with h1 h2 h3 h4 h5 h6
  · simp [h1]
  · simp only [false_iff, not_and]
    intro _ hd
    exact absurd (hd ▸ h2) (by simp)
  · simp [h3]
  · simp [h4]
  · simp [h5]
  · simp [h6]
  · simp only [eq_self_iff_true, true_iff]
    exact ⟨not_not.mp (by exact h1), bool_true_of_not_false h2,
      not_not.mp (by exact h3), not_not.mp (by exact h4),
      not_not.mp (by exact h5), not_not.mp (by exact h6)⟩

theorem check_ica_err_iff (i : IcaInst) (t : IcaRecord) (p : IcaParams)
    (hp : t.params = some p) :
    (∃ f, check_ica_params i t = Except.error (Err.paramMismatch f)) ↔
      ¬ icaAgrees i p := by
  rw [check_ica_some i t p hp]
  unfold icaAgrees
  split_ifs with h1 h2 h3 h4 h5 h6
  · exact ⟨fun _ hagr => absurd hagr.1 h1, fun _ => ⟨"ch_names", rfl⟩⟩
  · exact ⟨fun _ hagr => absurd (h2 ▸ hagr.2.1) (by decide),
      fun _ => ⟨"fit_params", rfl⟩⟩
  · exact ⟨fun _ hagr => absurd hagr.2.2.1 h3, fun _ => ⟨"n_components", rfl⟩⟩
  · exact ⟨fun _ hagr => absurd hagr.2.2.2.1 h4, fun _ => ⟨"highpass", rfl⟩⟩
  · exact ⟨fun _ hagr => absurd hagr.2.2.2.2.1 h5, fun _ => ⟨"lowpass", rfl⟩⟩
  · exact ⟨fun _ hagr => absurd hagr.2.2.2.2.2 h6, fun _ => ⟨"sfreq", rfl⟩⟩
  · constructor
    · intro hf
      obtain ⟨f, hf⟩ := hf
      cases hf
    · intro h
      exact absurd ⟨not_not.mp (by exact h1), bool_true_of_not_false h2,
        not_not.mp (by exact h3), not_not.mp (by exact h4),
        not_not.mp (by exact h5), not_not.mp (by exact h6)⟩ h

theorem check_ica_ok_shape (i : IcaInst) (t r : IcaRecord)
    (h : check_ica_params i t = Except.ok r) :
    r.exclude = t.exclude ∧ (∀ p, t.params = some p → r = t) := by
  cases hp : t.params with
  | none =>
    rw [check_ica_none i t hp] at h
    cases h
    exact ⟨rfl, fun p hc => by simp [hp] at hc⟩
  | some p =>
    rw [check_ica_some i t p hp] at h
    split_ifs at h
    cases h
    exact ⟨rfl, fun _ _ => rfl⟩

/-- Positions (counting from `j`) of the elements of a list that lie in `td`. -/
def posOf : List Nat → List Nat → Nat → List Nat
  | [], _, _ => []
  | x :: rest, td, j =>
    if x ∈ td then j :: posOf rest td (j + 1) else posOf rest td (j + 1)

theorem computeDropIdx_eq_posOf (dlog : List (List String)) (td : List Nat) :
    ∀ i c, computeDropIdx dlog td i c = posOf (emptyIdx dlog i) td c := by
  induction dlog with
  | nil => intro i c; rfl
  | cons d rest ih =>
    intro i c
    by_cases hd : d.length = 0
    · by_cases hi : i ∈ td <;>
        simp [computeDropIdx, emptyIdx, posOf, hd, hi, ih]
    · simp [computeDropIdx, emptyIdx, hd, ih]

theorem posOf_ge (l td : List Nat) : ∀ j q, q ∈ posOf l td j → j ≤ q := by
  induction l with
  | nil => intro j q h; cases h
  | cons x rest ih =>
    intro j q h
    by_cases hx : x ∈ td
    · rw [posOf, if_pos hx] at h
      rcases List.mem_cons.mp h with h | h
      · omega
      · have := ih (j + 1) q h; omega
    · rw [posOf, if_neg hx] at h
      have := ih (j + 1) q h; omega

theorem dropSel_congr (l : List Nat) : ∀ (ps qs : List Nat) (p : Nat),
    (∀ q, p ≤ q → (q ∈ ps ↔ q ∈ qs)) → dropSel l ps p = dropSel l qs p := by
  induction l with
  | nil => intro ps qs p _; rfl
  | cons x rest ih =>
    intro ps qs p h
    have hmem : p ∈ ps ↔ p ∈ qs := h p le_rfl
    have htail := ih ps qs (p + 1) (fun q hq => h q (by omega))
    by_cases hp : p ∈ ps
    · rw [dropSel, if_pos hp, dropSel, if_pos (hmem.mp hp), htail]
    · rw [dropSel, if_neg hp, dropSel, if_neg (fun hc => hp (hmem.mpr hc)), htail]

theorem selAt_congr (l : List Nat) : ∀ (ps qs : List Nat) (p : Nat),
    (∀ q, p ≤ q → (q ∈ ps ↔ q ∈ qs)) → selAt l ps p = selAt l qs p := by
  induction l with
  | nil => intro ps qs p _; rfl
  | cons x rest ih =>
    intro ps qs p h
    have hmem : p ∈ ps ↔ p ∈ qs := h p le_rfl
    have htail := ih ps qs (p + 1) (fun q hq => h q (by omega))
    by_cases hp : p ∈ ps
    · rw [selAt, if_pos hp, selAt, if_pos (hmem.mp hp), htail]
    · rw [selAt, if_neg hp, selAt, if_neg (fun hc => hp (hmem.mpr hc)), htail]

theorem dropSel_posOf (td : List Nat) : ∀ (l : List Nat) (p : Nat),
    dropSel l (posOf l td p) p = l.filter (fun x => decide (x ∉ td)) := by
  intro l
  induction l with
  | nil => intro p; rfl
  | cons x rest ih =>
    intro p
    by_cases hx : x ∈ td
    · rw [posOf, if_pos hx, dropSel, if_pos (List.mem_cons_self p _)]
      rw [dropSel_congr rest (p :: posOf rest td (p + 1)) (posOf rest td (p + 1)) (p + 1)
        (fun q hq => by
          constructor
          · intro hm
            rcases List.mem_cons.mp hm with h | h
            · omega
            · exact h
          · intro hm; exact List.mem_cons_of_mem _ hm)]
      rw [ih (p + 1)]
      simp [hx]
    · rw [posOf, if_neg hx, dropSel,
        if_neg (fun hc => by have := posOf_ge rest td (p + 1) p hc; omega)]
      rw [ih (p + 1)]
      simp [hx]

theorem selAt_posOf (td : List Nat) : ∀ (l : List Nat) (p : Nat),
    selAt l (posOf l td p) p = l.filter (fun x => decide (x ∈ td)) := by
  intro l
  induction l with
  | nil => intro p; rfl
  | cons x rest ih =>
    intro p
    by_cases hx : x ∈ td
    · rw [posOf, if_pos hx, selAt, if_pos (List.mem_cons_self p _)]
      rw [selAt_congr rest (p :: posOf rest td (p + 1)) (posOf rest td (p + 1)) (p + 1)
        (fun q hq => by
          constructor
          · intro hm
            rcases List.mem_cons.mp hm with h | h
            · omega
            · exact h
          · intro hm; exact List.mem_cons_of_mem _ hm)]
      rw [ih (p + 1)]
      simp [hx]
    · rw [posOf, if_neg hx, selAt,
        if_neg (fun hc => by have := posOf_ge rest td (p + 1) p hc; omega)]
      rw [ih (p + 1)]
      simp [hx]

theorem markLog_getD (dropped : List Nat) (r : String) :
    ∀ (dlog : List (List String)) (j i : Nat), i < dlog.length →
      (markLog dlog dropped r j).getD i [] =
        (if (j + i) ∈ dropped then [r] else dlog.getD i []) := by
  intro dlog
  induction dlog with
  | nil => intro j i h; cases h
  | cons d rest ih =>
    intro j i h
    cases i with
    | zero => simp [markLog]
    | succ i =>
      have hlen : i < rest.length := by simpa using h
      have : j + (i + 1) = (j + 1) + i := by omega
      simp only [markLog, List.getD_cons_succ, this]
      exact ih (j + 1) i hlen

theorem markLog_nil (r : String) : ∀ (dlog : List (List String)) (j : Nat),
    markLog dlog [] r j = dlog := by
  intro dlog
  induction dlog with
  | nil => intro j; rfl
  | cons d rest ih => intro j; simp [markLog, ih]

theorem posOf_nil (l : List Nat) : ∀ j, posOf l [] j = [] := by
  induction l with
  | nil => intro j; rfl
  | cons x rest ih => intro j; simp [posOf, ih]

theorem dropSel_nil (l : List Nat) : ∀ p, dropSel l [] p = l := by
  induction l with
  | nil => intro p; rfl
  | cons x rest ih => intro p; simp [dropSel, ih]

theorem selAt_nil (l : List Nat) : ∀ p, selAt l [] p = [] := by
  induction l with
  | nil => intro p; rfl
  | cons x rest ih => intro p; simp [selAt, ih]

theorem emptyIdx_lt (dlog : List (List String)) :
    ∀ i q, q ∈ emptyIdx dlog i → i ≤ q ∧ q < i + dlog.length := by
  induction dlog with
  | nil => intro i q h; cases h
  | cons d rest ih =>
    intro i q h
    by_cases hd : d.length = 0
    · rw [emptyIdx, if_pos hd] at h
      rcases List.mem_cons.mp h with h | h
      · subst h
        constructor
        · exact le_rfl
        · simp
      · have := ih (i + 1) q h
        constructor
        · omega
        · simp only [List.length_cons]; omega
    · rw [emptyIdx, if_neg hd] at h
      have := ih (i + 1) q h
      constructor
      · omega
      · simp only [List.length_cons]; omega

theorem healedRaws (git : String) (d : Option Logs) :
    (heal git (d.getD {})).raws.getD [] = rawsMap d := by
  cases d <;> simp [heal, rawsMap]

theorem healedEpochs (git : String) (d : Option Logs) :
    (heal git (d.getD {})).epochs.getD [] = epochsMap d := by
  cases d <;> simp [heal, epochsMap]

theorem healedIcas (git : String) (d : Option Logs) :
    (heal git (d.getD {})).icas.getD [] = icasMap d := by
  cases d <;> simp [heal, icasMap]

theorem isNone_false_of_epochs_lookup {d : Option Logs} {f : String}
    {t : EpochsRecord} (h : lookupK f (epochsMap d) = some t) : d.isNone = false := by
  cases d with
  | none => rw [show epochsMap none = [] from rfl] at h; cases h
  | some l => rfl

theorem isNone_false_of_icas_lookup {d : Option Logs} {f : String}
    {t : IcaRecord} (h : lookupK f (icasMap d) = some t) : d.isNone = false := by
  cases d with
  | none => rw [show icasMap none = [] from rfl] at h; cases h
  | some l => rfl

/-- Both kinds of stored params snapshots survive from `d` to `d'`. -/
def snapshotsPreserved (d d' : Option Logs) : Prop :=
  (∀ f p, epochsParamsAt d f = some p → epochsParamsAt d' f = some p) ∧
  (∀ f p, icaParamsAt d f = some p → icaParamsAt d' f = some p)

theorem sp_of_maps {d d' : Option Logs}
    (he : epochsMap d' = epochsMap d) (hi : icasMap d' = icasMap d) :
    snapshotsPreserved d d' := by
  constructor
  · intro f p h; rw [epochsParamsAt, he]; exact h
  · intro f p h; rw [icaParamsAt, hi]; exact h

theorem sp_refl (d : Option Logs) : snapshotsPreserved d d :=
  sp_of_maps rfl rfl

theorem update_raw_eq (git pn : String) (d : Option Logs) (f : String)
    (bs : List String) :
    update_log git pn d (Inst.raw f bs) =
      (Except.ok (), some (heal git { heal git (d.getD {}) with
        raws := some (storeBack (rawsMap d) f { bads := some bs }) })) := by
  simp [update_log, read_log, save_log, healedRaws]

theorem update_epochs_ok_eq (git pn : String) (d : Option Logs) (e : EpochsInst)
    (t' : EpochsRecord)
    (hc : check_epochs_params e ((lookupK e.fname (epochsMap d)).getD {}) =
      Except.ok t') :
    update_log git pn d (Inst.epochs e) =
      (Except.ok (), some (heal git { heal git (d.getD {}) with
        epochs := some (storeBack (epochsMap d) e.fname
          { t' with bads := some e.bads, selection := some e.selection }) })) := by
  simp [update_log, read_log, save_log, healedEpochs, hc]

theorem update_epochs_err_eq (git pn : String) (d : Option Logs) (e : EpochsInst)
    (err : Err)
    (hc : check_epochs_params e ((lookupK e.fname (epochsMap d)).getD {}) =
      Except.error err) :
    update_log git pn d (Inst.epochs e) =
      (Except.error err, some (heal git (d.getD {}))) := by
  simp [update_log, read_log, save_log, heal_heal, healedEpochs, hc]

theorem update_ica_ok_eq (git pn : String) (d : Option Logs) (i : IcaInst)
    (t' : IcaRecord)
    (hc : check_ica_params i ((lookupK pn (icasMap d)).getD {}) = Except.ok t') :
    update_log git pn d (Inst.ica i) =
      (Except.ok (), some (heal git { heal git (d.getD {}) with
        icas := some (storeBack (icasMap d) pn
          { t' with exclude := some i.exclude }) })) := by
  simp [update_log, read_log, save_log, healedIcas, hc]

theorem update_ica_err_eq (git pn : String) (d : Option Logs) (i : IcaInst)
    (err : Err)
    (hc : check_ica_params i ((lookupK pn (icasMap d)).getD {}) = Except.error err) :
    update_log git pn d (Inst.ica i) =
      (Except.error err, some (heal git (d.getD {}))) := by
  simp [update_log, read_log, save_log, heal_heal, healedIcas, hc]

theorem update_other_eq (git pn : String) (d : Option Logs) :
    update_log git pn d Inst.other =
      (Except.ok (), some (heal git (d.getD {}))) := by
  simp [update_log, read_log, save_log, heal_heal]

theorem reject_guard_eq (git pn : String) (d : Option Logs) (inst : Inst)
    (req : Bool) (hg : (d.isNone && req) = true) :
    reject git pn d inst req = (Except.error Err.missingLog, d) := by
  simp [reject, hg]

theorem reject_raw_eq (git pn : String) (d : Option Logs) (f : String)
    (bs : List String) (req : Bool) (hg : (d.isNone && req) = false) :
    reject git pn d (Inst.raw f bs) req =
      (Except.ok (Inst.raw f ((storedBads d f ++ bs).dedup)),
        some (heal git (d.getD {}))) := by
  simp [reject, hg, read_log, save_log, heal_heal, healedRaws, storedBads]

theorem reject_epochs_ok_eq (git pn : String) (d : Option Logs) (e : EpochsInst)
    (t' : EpochsRecord)
    (hc : check_epochs_params e ((lookupK e.fname (epochsMap d)).getD {}) =
      Except.ok t')
    (req : Bool) (hg : (d.isNone && req) = false) :
    reject git pn d (Inst.epochs e) req =
      (Except.ok (Inst.epochs (EpochsInst.drop
          { e with bads := ((t'.bads.getD []) ++ e.bads).dedup }
          (computeDropIdx e.drop_log
            (e.selection.filter
              (fun x => decide (x ∉ t'.selection.getD e.selection))) 0 0)
          "Inspection")),
        some (heal git (d.getD {}))) := by
  simp [reject, hg, read_log, save_log, heal_heal, healedEpochs, hc]

theorem reject_epochs_err_eq (git pn : String) (d : Option Logs) (e : EpochsInst)
    (err : Err)
    (hc : check_epochs_params e ((lookupK e.fname (epochsMap d)).getD {}) =
      Except.error err)
    (req : Bool) (hg : (d.isNone && req) = false) :
    reject git pn d (Inst.epochs e) req =
      (Except.error err, some (heal git (d.getD {}))) := by
  simp [reject, hg, read_log, save_log, heal_heal, healedEpochs, hc]

theorem reject_ica_ok_eq (git pn : String) (d : Option Logs) (i : IcaInst)
    (t' : IcaRecord)
    (hc : check_ica_params i ((lookupK pn (icasMap d)).getD {}) = Except.ok t')
    (req : Bool) (hg : (d.isNone && req) = false) :
    reject git pn d (Inst.ica i) req =
      (Except.ok (Inst.ica { i with exclude := t'.exclude.getD [] }),
        some (heal git (d.getD {}))) := by
  simp [reject, hg, read_log, save_log, heal_heal, healedIcas, hc]

theorem reject_ica_err_eq (git pn : String) (d : Option Logs) (i : IcaInst)
    (err : Err)
    (hc : check_ica_params i ((lookupK pn (icasMap d)).getD {}) = Except.error err)
    (req : Bool) (hg : (d.isNone && req) = false) :
    reject git pn d (Inst.ica i) req =
      (Except.error err, some (heal git (d.getD {}))) := by
  simp [reject, hg, read_log, save_log, heal_heal, healedIcas, hc]

theorem reject_other_eq (git pn : String) (d : Option Logs)
    (req : Bool) (hg : (d.isNone && req) = false) :
    reject git pn d Inst.other req =
      (Except.ok Inst.other, some (heal git (d.getD {}))) := by
  simp [reject, hg, read_log, save_log, heal_heal]

theorem sp_healD (git : String) (d : Option Logs) :
    snapshotsPreserved d (some (heal git (d.getD {}))) :=
  sp_of_maps (epochsMap_healDisk git d) (icasMap_healDisk git d)

theorem epochsMap_inner (git : String) (l : Logs) (m : RecMap EpochsRecord) :
    epochsMap (some (heal git { l with epochs := some m })) = m := by
  simp [epochsMap, heal]

theorem icasMap_inner (git : String) (l : Logs) (m : RecMap IcaRecord) :
    icasMap (some (heal git { l with icas := some m })) = m := by
  simp [icasMap, heal]

theorem epochsMap_keep_raws (git : String) (l : Logs) (m : RecMap RawRecord) :
    epochsMap (some (heal git { l with raws := some m })) = l.epochs.getD [] := by
  simp [epochsMap, heal]

theorem icasMap_keep_raws (git : String) (l : Logs) (m : RecMap RawRecord) :
    icasMap (some (heal git { l with raws := some m })) = l.icas.getD [] := by
  simp [icasMap, heal]

theorem epochsMap_keep_icas (git : String) (l : Logs) (m : RecMap IcaRecord) :
    epochsMap (some (heal git { l with icas := some m })) = l.epochs.getD [] := by
  simp [epochsMap, heal]

theorem icasMap_keep_epochs (git : String) (l : Logs) (m : RecMap EpochsRecord) :
    icasMap (some (heal git { l with epochs := some m })) = l.icas.getD [] := by
  simp [icasMap, heal]

theorem sp_raws_store (git : String) (d : Option Logs) (m : RecMap RawRecord) :
    snapshotsPreserved d (some (heal git { heal git (d.getD {}) with
      raws := some m })) :=
  sp_of_maps (by rw [epochsMap_keep_raws, healedEpochs])
    (by rw [icasMap_keep_raws, healedIcas])

theorem sp_epochs_store (git : String) (d : Option Logs) (k : String)
    (rec : EpochsRecord)
    (hpk : ∀ p, epochsParamsAt d k = some p → rec.params = some p) :
    snapshotsPreserved d (some (heal git { heal git (d.getD {}) with
      epochs := some (storeBack (epochsMap d) k rec) })) := by
  constructor
  · intro f p hfp
    rw [epochsParamsAt, epochsMap_inner, lookupK_storeBack]
    by_cases hf : f = k
    · rw [if_pos hf, Option.some_bind]
      exact hpk p (hf ▸ hfp)
    · rw [if_neg hf]
      rw [epochsParamsAt] at hfp
      exact hfp
  · intro f p hfp
    rw [icaParamsAt, icasMap_keep_epochs, healedIcas]
    rw [icaParamsAt] at hfp
    exact hfp

theorem sp_icas_store (git : String) (d : Option Logs) (k : String)
    (rec : IcaRecord)
    (hpk : ∀ p, icaParamsAt d k = some p → rec.params = some p) :
    snapshotsPreserved d (some (heal git { heal git (d.getD {}) with
      icas := some (storeBack (icasMap d) k rec) })) := by
  constructor
  · intro f p hfp
    rw [epochsParamsAt, epochsMap_keep_icas, healedEpochs]
    rw [epochsParamsAt] at hfp
    exact hfp
  · intro f p hfp
    rw [icaParamsAt, icasMap_inner, lookupK_storeBack]
    by_cases hf : f = k
    · rw [if_pos hf, Option.some_bind]
      exact hpk p (hf ▸ hfp)
    · rw [if_neg hf]
      rw [icaParamsAt] at hfp
      exact hfp

theorem sp_update (git pn : String) (d : Option Logs) (inst : Inst) :
    snapshotsPreserved d (update_log git pn d inst).2 := by
  cases inst with
  | raw f bs =>
    rw [update_raw_eq]
    exact sp_raws_store git d _
  | epochs e =>
    cases hres : check_epochs_params e ((lookupK e.fname (epochsMap d)).getD {}) with
    | error err =>
      rw [update_epochs_err_eq git pn d e err hres]
      exact sp_healD git d
    | ok t' =>
      rw [update_epochs_ok_eq git pn d e t' hres]
      refine sp_epochs_store git d e.fname _ (fun p hp => ?_)
      rw [epochsParamsAt] at hp
      obtain ⟨t0, hl0, hp0⟩ := Option.bind_eq_some.mp hp
      have hgd : (lookupK e.fname (epochsMap d)).getD ({} : EpochsRecord) = t0 := by
        rw [hl0]; rfl
      have heq : t' = t0 := by
        have h2 := (check_epochs_ok_shape e ((lookupK e.fname (epochsMap d)).getD {})
          t' hres).2.2 p (by rw [hgd]; exact hp0)
        rw [hgd] at h2
        exact h2
      show t'.params = some p
      rw [heq]
      exact hp0
  | ica i =>
    cases hres : check_ica_params i ((lookupK pn (icasMap d)).getD {}) with
    | error err =>
      rw [update_ica_err_eq git pn d i err hres]
      exact sp_healD git d
    | ok t' =>
      rw [update_ica_ok_eq git pn d i t' hres]
      refine sp_icas_store git d pn _ (fun p hp => ?_)
      rw [icaParamsAt] at hp
      obtain ⟨t0, hl0, hp0⟩ := Option.bind_eq_some.mp hp
      have hgd : (lookupK pn (icasMap d)).getD ({} : IcaRecord) = t0 := by
        rw [hl0]; rfl
      have heq : t' = t0 := by
        have h2 := (check_ica_ok_shape i ((lookupK pn (icasMap d)).getD {})
          t' hres).2 p (by rw [hgd]; exact hp0)
        rw [hgd] at h2
        exact h2
      show t'.params = some p
      rw [heq]
      exact hp0
  | other =>
    rw [update_other_eq]
    exact sp_healD git d

theorem sp_reject (git pn : String) (d : Option Logs) (inst : Inst) (req : Bool) :
    snapshotsPreserved d (reject git pn d inst req).2 := by
  cases hg : (d.isNone && req) with
  | true => rw [reject_guard_eq git pn d inst req hg]; exact sp_refl d
  | false =>
    cases inst with
    | raw f bs => rw [reject_raw_eq git pn d f bs req hg]; exact sp_healD git d
    | epochs e =>
      cases hres : check_epochs_params e ((lookupK e.fname (epochsMap d)).getD {}) with
      | error err =>
        rw [reject_epochs_err_eq git pn d e err hres req hg]; exact sp_healD git d
      | ok t' =>
        rw [reject_epochs_ok_eq git pn d e t' hres req hg]; exact sp_healD git d
    | ica i =>
      cases hres : check_ica_params i ((lookupK pn (icasMap d)).getD {}) with
      | error err =>
        rw [reject_ica_err_eq git pn d i err hres req hg]; exact sp_healD git d
      | ok t' =>
        rw [reject_ica_ok_eq git pn d i t' hres req hg]; exact sp_healD git d
    | other => rw [reject_other_eq git pn d req hg]; exact sp_healD git d

theorem sp_is_cleaned (git pn kind : String) (d : Option Logs) :
    snapshotsPreserved d (is_cleaned git d pn kind).2 := by
  unfold is_cleaned
  by_cases h1 : kind ∉ ["raws", "epochs", "icas"]
  · rw [if_pos h1]
    exact sp_refl d
  · rw [if_neg h1]
    by_cases h2 : d.isNone = true
    · rw [if_pos h2]
      exact sp_refl d
    · rw [if_neg h2]
      show snapshotsPreserved d (read_log git d).2
      rw [read_log_snd]
      exact sp_healD git d

theorem rawsMap_inner (git : String) (l : Logs) (m : RecMap RawRecord) :
    rawsMap (some (heal git { l with raws := some m })) = m := by
  simp [rawsMap, heal]

/-- Claim C9: `read_log` always returns a structure with all four top-level
keys (`raws`, `epochs`, `icas`, and `config` with its version entry) present,
immediately persists that completed structure back to disk, and preserves
unknown extra keys; the same guarantees hold for the content written by every
`save_log`. -/
theorem log_schema_self_healing (git : String) (d : Option Logs) :
    ((read_log git d).1.raws.isSome = true ∧
      (read_log git d).1.epochs.isSome = true ∧
      (read_log git d).1.icas.isSome = true ∧
      (∃ c : ConfigRec, (read_log git d).1.config = some c)) ∧
    (read_log git d).2 = some ((read_log git d).1) ∧
    (read_log git d).1.extra = (d.getD {}).extra ∧
    (∀ l : Logs, (save_log git l).raws.isSome = true ∧
      (save_log git l).epochs.isSome = true ∧
      (save_log git l).icas.isSome = true ∧
      (∃ c : ConfigRec, (save_log git l).config = some c) ∧
      (save_log git l).extra = l.extra) := by
  refine ⟨⟨rfl, rfl, rfl, ⟨_, rfl⟩⟩, ?_, rfl,
    fun l => ⟨rfl, rfl, rfl, ⟨_, rfl⟩, rfl⟩⟩
  show some (save_log git (heal git (d.getD {}))) = some (heal git (d.getD {}))
  rw [save_log, heal_heal]

/-- Claim C10: `update_log` on an artifact of none of the three recognized
kinds raises no error and adds no record to any mapping, yet still reads and
re-persists the schema-healed log file. -/
theorem update_log_unrecognized (git pn : String) (d : Option Logs) :
    (update_log git pn d Inst.other).1 = Except.ok () ∧
    (update_log git pn d Inst.other).2 = some (heal git (d.getD {})) ∧
    rawsMap (update_log git pn d Inst.other).2 = rawsMap d ∧
    epochsMap (update_log git pn d Inst.other).2 = epochsMap d ∧
    icasMap (update_log git pn d Inst.other).2 = icasMap d := by
  refine ⟨by rw [update_other_eq], by rw [update_other_eq], ?_, ?_, ?_⟩
  · rw [update_other_eq]
    exact rawsMap_healDisk git d
  · rw [update_other_eq]
    exact epochsMap_healDisk git d
  · rw [update_other_eq]
    exact icasMap_healDisk git d

/-- Claim C3 (counterexample): with no log file present, `reject` does create
`eeg_cleaner.json` (through `read_log`), refuting "no file is created if none
existed". -/
theorem reject_writes_counterexample :
    (reject "v1" "p" none (Inst.raw "a.fif" []) false).2 ≠ none := by decide

/-- Claim C3 (amended): `reject` persists no decision data of its own, but it
is not storage-neutral: unless it fails the `required` guard, the file
afterwards holds exactly the schema-healed load — a default file is created
when none existed, and an existing file is rewritten to its healed form
(unchanged only when already healed). -/
theorem reject_storage_effect (git pn : String) (d : Option Logs) (inst : Inst)
    (req : Bool) :
    (reject git pn d inst req).2 =
      if (d.isNone && req) = true then d else some (heal git (d.getD {})) := by
  cases hg : (d.isNone && req) with
  | true =>
    rw [reject_guard_eq git pn d inst req hg, if_pos rfl]
  | false =>
    rw [if_neg (by simp)]
    cases inst with
    | raw f bs => rw [reject_raw_eq git pn d f bs req hg]
    | epochs e =>
      cases hres : check_epochs_params e ((lookupK e.fname (epochsMap d)).getD {}) with
      | error err => rw [reject_epochs_err_eq git pn d e err hres req hg]
      | ok t' => rw [reject_epochs_ok_eq git pn d e t' hres req hg]
    | ica i =>
      cases hres : check_ica_params i ((lookupK pn (icasMap d)).getD {}) with
      | error err => rw [reject_ica_err_eq git pn d i err hres req hg]
      | ok t' => rw [reject_ica_ok_eq git pn d i t' hres req hg]
    | other => rw [reject_other_eq git pn d req hg]

/-- A present-but-unhealed log file: the `raws` key is missing. -/
def unhealedLogs : Logs :=
  { raws := none
    epochs := some []
    icas := some []
    config := some { version := "v1" }
    extra := [] }

/-- Claim C4 (counterexample): on a file that exists but is missing the `raws`
key, `is_cleaned` rewrites the file with the healed content, mutating it. -/
theorem is_cleaned_mutates_counterexample :
    (is_cleaned "v1" (some unhealedLogs) "a.fif" "raws").2 ≠
      some unhealedLogs := by decide

/-- Claim C4 (amended): `is_cleaned` never creates a file when none exists
(and leaves the disk untouched on an invalid kind), but when a file exists it
re-persists the schema-healed content, so the file is unchanged only when it
already had all four top-level keys. -/
theorem is_cleaned_storage_effect (git pn kind : String) (d : Option Logs) :
    (is_cleaned git d pn kind).2 =
      if kind ∉ ["raws", "epochs", "icas"] then d
      else if d.isNone then d
      else some (heal git (d.getD {})) := by
  unfold is_cleaned
  by_cases h1 : kind ∉ ["raws", "epochs", "icas"]
  · rw [if_pos h1, if_pos h1]
  · rw [if_neg h1, if_neg h1]
    by_cases h2 : d.isNone = true
    · rw [if_pos h2, if_pos h2]
    · rw [if_neg h2, if_neg h2]
      show (read_log git d).2 = _
      rw [read_log_snd]

/-- Claim C1 (counterexample): a second `update_log` for an already-recorded
raw filename persists the second call's bad-channel list, refuting
write-once. -/
theorem update_write_once_refuted :
    lookupK "a.fif" (rawsMap (update_log "v1" "p"
        (update_log "v1" "p" none (Inst.raw "a.fif" ["C1"])).2
        (Inst.raw "a.fif" ["C2"])).2) = some { bads := some ["C2"] } ∧
    lookupK "a.fif" (rawsMap
        (update_log "v1" "p" none (Inst.raw "a.fif" ["C1"])).2) =
      some { bads := some ["C1"] } := by decide

/-- Claim C1 (amended): `update_log` is update-or-create rather than
write-once: the fetched record aliases the stored dict, so after any call the
record under the artifact's filename holds that call's decision fields (`bads`
for raw; `bads` and `selection` for epochs; `exclude` for ica), overwriting a
pre-existing record's fields, while a pre-existing `params` snapshot is kept
(only validated, never rewritten). -/
theorem update_log_overwrites (git pn : String) (d : Option Logs) :
    (∀ (f : String) (bs : List String),
      lookupK f (rawsMap (update_log git pn d (Inst.raw f bs)).2) =
        some { bads := some bs }) ∧
    (∀ (e : EpochsInst) (t' : EpochsRecord),
      check_epochs_params e ((lookupK e.fname (epochsMap d)).getD {}) =
        Except.ok t' →
      lookupK e.fname (epochsMap (update_log git pn d (Inst.epochs e)).2) =
        some { t' with bads := some e.bads, selection := some e.selection }) ∧
    (∀ (i : IcaInst) (t' : IcaRecord),
      check_ica_params i ((lookupK pn (icasMap d)).getD {}) = Except.ok t' →
      lookupK pn (icasMap (update_log git pn d (Inst.ica i)).2) =
        some { t' with exclude := some i.exclude }) := by
  refine ⟨fun f bs => ?_, fun e t' hc => ?_, fun i t' hc => ?_⟩
  · rw [update_raw_eq]
    show lookupK f (rawsMap (some (heal git { heal git (d.getD {}) with
      raws := some (storeBack (rawsMap d) f { bads := some bs }) }))) = _
    rw [rawsMap_inner, lookupK_storeBack, if_pos rfl]
  · rw [update_epochs_ok_eq git pn d e t' hc]
    show lookupK e.fname (epochsMap (some (heal git { heal git (d.getD {}) with
      epochs := some (storeBack (epochsMap d) e.fname
        { t' with bads := some e.bads, selection := some e.selection }) }))) = _
    rw [epochsMap_inner, lookupK_storeBack, if_pos rfl]
  · rw [update_ica_ok_eq git pn d i t' hc]
    show lookupK pn (icasMap (some (heal git { heal git (d.getD {}) with
      icas := some (storeBack (icasMap d) pn
        { t' with exclude := some i.exclude }) }))) = _
    rw [icasMap_inner, lookupK_storeBack, if_pos rfl]

/-- A log file whose `raws` mapping already has a record for `a.fif`. -/
def rawRecordedLogs : Logs :=
  { raws := some [("a.fif", { bads := some ["C1"] })]
    epochs := none
    icas := none
    config := none
    extra := [] }

/-- A one-epoch segmented artifact used as a concrete input. -/
def smallEpochs : EpochsInst :=
  { fname := "e"
    bads := ["X"]
    tmin := 0
    tmax := 1
    selection := [0]
    events := [5]
    drop_log := [[]] }

/-- Claim C1 (amended, witness): concrete overwrite of an existing raw record
and a first-time epochs record creation. -/
theorem update_log_overwrites_witness :
    lookupK "a.fif" (rawsMap (update_log "v1" "p" (some rawRecordedLogs)
      (Inst.raw "a.fif" ["C2"])).2) = some { bads := some ["C2"] } ∧
    lookupK "e" (epochsMap (update_log "v1" "p" none
      (Inst.epochs smallEpochs)).2) =
      some {
        bads := some ["X"], selection := some [0],
        params := some { tmin := 0, tmax := 1, events := [5] } } :=
  ⟨(update_log_overwrites "v1" "p" (some rawRecordedLogs)).1 "a.fif" ["C2"],
    (update_log_overwrites "v1" "p" none).2.1 smallEpochs
      {
        bads := none, selection := none,
        params := some { tmin := 0, tmax := 1, events := [5] } }
      rfl⟩

/-- Claim C5: with a stored params snapshot and matching `tmin`/`tmax`, the
epochs check succeeds exactly when every onset at a current position whose
original index lies in the intersection of the current and stored selections
(all current positions when no selection is stored) appears in the stored
events list, and fails with the events-mismatch error exactly otherwise. -/
theorem epochs_events_validation (e : EpochsInst) (t : EpochsRecord)
    (p : EpochsParams) (hp : t.params = some p)
    (h1 : e.tmin = p.tmin) (h2 : e.tmax = p.tmax) :
    (check_epochs_params e t = Except.ok t ↔ eventsOkP e t p) ∧
    (check_epochs_params e t = Except.error (Err.paramMismatch "events") ↔
      ¬ eventsOkP e t p) := by
  rw [check_epochs_some e t p hp, if_neg (not_not.mpr h1), if_neg (not_not.mpr h2)]
  by_cases hb : eventsCheckB e t p = true
  · rw [if_pos hb]
    have hok := (eventsCheckB_iff e t p).mp hb
    exact ⟨⟨fun _ => hok, fun _ => rfl⟩,
      ⟨(fun hcontra => nomatch hcontra), fun hn => absurd hok hn⟩⟩
  · rw [if_neg hb]
    have hn : ¬ eventsOkP e t p := fun h => hb ((eventsCheckB_iff e t p).mpr h)
    exact ⟨⟨(fun hcontra => nomatch hcontra), fun h => absurd h hn⟩,
      ⟨fun _ => hn, fun _ => rfl⟩⟩

/-- A stored epochs snapshot for the C5 concrete cases. -/
def snapParams : EpochsParams :=
  { tmin := 0, tmax := 1, events := [10, 12, 14] }

/-- A stored epochs record with selection `[0, 2, 4]` and a snapshot. -/
def snapRecord : EpochsRecord :=
  { bads := none
    selection := some [0, 2, 4]
    params := some snapParams }

/-- A re-cut artifact whose retained onsets agree with the snapshot (a new
segment `6` with onset `99` was appended). -/
def grownEpochs : EpochsInst :=
  { fname := "e"
    bads := []
    tmin := 0
    tmax := 1
    selection := [0, 2, 4, 6]
    events := [10, 12, 14, 99]
    drop_log := [[], ["x"], [], ["x"], [], ["x"], []] }

/-- Like `grownEpochs` but with a shifted onset at retained index `4`. -/
def shiftedEpochs : EpochsInst :=
  { grownEpochs with events := [10, 12, 77, 99] }

/-- Claim C5 (witness): the grown artifact passes the events check; the
shifted artifact fails with the events mismatch error. -/
theorem epochs_events_validation_witness :
    check_epochs_params grownEpochs snapRecord = Except.ok snapRecord ∧
    check_epochs_params shiftedEpochs snapRecord =
      Except.error (Err.paramMismatch "events") :=
  ⟨(epochs_events_validation grownEpochs snapRecord snapParams rfl rfl rfl).1.mpr
      (by decide),
    (epochs_events_validation shiftedEpochs snapRecord snapParams rfl rfl rfl).2.mpr
      (by decide)⟩

/-- Claim C7: for a decomposition artifact with a stored record whose
parameter check passes, `reject` sets the artifact's exclude list to the
stored exclude list verbatim, regardless of the runtime exclude list. -/
theorem ica_exclude_replaced (git pn : String) (d : Option Logs) (i : IcaInst)
    (t t' : IcaRecord) (ht : lookupK pn (icasMap d) = some t)
    (hc : check_ica_params i t = Except.ok t') :
    (reject git pn d (Inst.ica i) false).1 =
      Except.ok (Inst.ica { i with exclude := t.exclude.getD [] }) := by
  have hg : (d.isNone && false) = false := by simp
  have hgd : (lookupK pn (icasMap d)).getD ({} : IcaRecord) = t := by rw [ht]; rfl
  have hc' : check_ica_params i ((lookupK pn (icasMap d)).getD {}) =
      Except.ok t' := by rw [hgd]; exact hc
  rw [reject_ica_ok_eq git pn d i t' hc' false hg,
    (check_ica_ok_shape i t t' hc).1]

/-- A log file whose `icas` mapping stores `exclude = [1, 3]` for `p`. -/
def icaStoredLogs : Logs :=
  { raws := none
    epochs := none
    icas := some [("p", { exclude := some [1, 3], params := none })]
    config := none
    extra := [] }

/-- A decomposition artifact with runtime exclude `[2]`. -/
def smallIca : IcaInst :=
  { ch_names := ["A"]
    fit_params := [("x", 1)]
    n_components := 3
    highpass := 1
    lowpass := 40
    sfreq := 500
    exclude := [2] }

/-- Claim C7 (witness): stored `[1, 3]` with runtime `[2]` yields exactly
`[1, 3]`. -/
theorem ica_exclude_replaced_witness :
    (reject "v1" "p" (some icaStoredLogs) (Inst.ica smallIca) false).1 =
      Except.ok (Inst.ica { smallIca with exclude := [1, 3] }) :=
  ica_exclude_replaced "v1" "p" (some icaStoredLogs) smallIca
    { exclude := some [1, 3], params := none }
    { exclude := some [1, 3], params := some {
        ch_names := ["A"], fit_params := [("x", 1)], n_components := 3,
        highpass := 1, lowpass := 40, sfreq := 500 } }
    rfl rfl

theorem storedBads_healDisk (git : String) (d : Option Logs) (f : String) :
    storedBads (some (heal git (d.getD {}))) f = storedBads d f := by
  rw [storedBads, storedBads, rawsMap_healDisk]

/-- Claim C8: reapplying stored raw bad-channel decisions merges them with the
runtime flags as a set union, and a second application to the result yields
the same set — no caller-set flag is ever removed. -/
theorem raw_reject_idempotent (git pn : String) (d : Option Logs) (f : String)
    (bs : List String) :
    ∃ m1 m2 : List String,
      (reject git pn d (Inst.raw f bs) false).1 = Except.ok (Inst.raw f m1) ∧
      (reject git pn ((reject git pn d (Inst.raw f bs) false).2)
        (Inst.raw f m1) false).1 = Except.ok (Inst.raw f m2) ∧
      (∀ c, c ∈ m1 ↔ (c ∈ storedBads d f ∨ c ∈ bs)) ∧
      (∀ c, c ∈ m2 ↔ c ∈ m1) := by
  have hg : ∀ dd : Option Logs, (dd.isNone && false) = false := fun dd => by simp
  refine ⟨(storedBads d f ++ bs).dedup,
    (storedBads d f ++ (storedBads d f ++ bs).dedup).dedup, ?_, ?_, ?_, ?_⟩
  · rw [reject_raw_eq git pn d f bs false (hg d)]
  · rw [reject_raw_eq git pn d f bs false (hg d)]
    show (reject git pn (some (heal git (d.getD {})))
      (Inst.raw f ((storedBads d f ++ bs).dedup)) false).1 = _
    rw [reject_raw_eq git pn (some (heal git (d.getD {}))) f
      ((storedBads d f ++ bs).dedup) false (hg _), storedBads_healDisk]
  · intro c
    simp [List.mem_dedup, List.mem_append]
  · intro c
    simp only [List.mem_dedup, List.mem_append]
    tauto

/-- Claim C6: for a well-formed segmented artifact whose parameter check
passes, `reject` drops exactly the currently-selected original indices not in
the stored selection — translated into positions among still-present segments
and tagged "Inspection" — and keeps the rest; with no stored selection nothing
is dropped. -/
theorem selection_subset_policy (git pn : String) (d : Option Logs)
    (e : EpochsInst) (t t' : EpochsRecord)
    (ht : lookupK e.fname (epochsMap d) = some t)
    (hwf : e.WF)
    (hc : check_epochs_params e t = Except.ok t') :
    ∃ e' : EpochsInst,
      (reject git pn d (Inst.epochs e) false).1 = Except.ok (Inst.epochs e') ∧
      (∀ s, t.selection = some s →
        e'.selection = e.selection.filter (fun x => decide (x ∈ s)) ∧
        (∀ i ∈ e.selection, i ∉ s → e'.drop_log.getD i [] = ["Inspection"]) ∧
        (∀ i, i < e.drop_log.length → ¬(i ∈ e.selection ∧ i ∉ s) →
          e'.drop_log.getD i [] = e.drop_log.getD i [])) ∧
      (t.selection = none →
        e'.selection = e.selection ∧ e'.events = e.events ∧
        e'.drop_log = e.drop_log) := by
  have hg : (d.isNone && false) = false := by simp
  have hgd : (lookupK e.fname (epochsMap d)).getD ({} : EpochsRecord) = t := by
    rw [ht]; rfl
  have hc' : check_epochs_params e ((lookupK e.fname (epochsMap d)).getD {}) =
      Except.ok t' := by rw [hgd]; exact hc
  have hsel' : t'.selection = t.selection := (check_epochs_ok_shape e t t' hc).2.1
  have hwf1 : e.selection = emptyIdx e.drop_log 0 := hwf.1
  rw [reject_epochs_ok_eq git pn d e t' hc' false hg]
  refine ⟨_, rfl, ?_, ?_⟩
  · intro s hs
    have hprev : t'.selection.getD e.selection = s := by rw [hsel', hs]; rfl
    rw [hprev]
    have htd : ∀ x, x ∈ e.selection.filter (fun x => decide (x ∉ s)) ↔
        (x ∈ e.selection ∧ x ∉ s) := by
      intro x
      simp [List.mem_filter]
    have hidx : computeDropIdx e.drop_log
        (e.selection.filter (fun x => decide (x ∉ s))) 0 0 =
        posOf e.selection (e.selection.filter (fun x => decide (x ∉ s))) 0 := by
      rw [computeDropIdx_eq_posOf, ← hwf1]
    refine ⟨?_, ?_, ?_⟩
    · show dropSel e.selection (computeDropIdx e.drop_log
        (e.selection.filter (fun x => decide (x ∉ s))) 0 0) 0 = _
      rw [hidx, dropSel_posOf]
      apply List.filter_congr
      intro x hx
      rw [decide_eq_decide]
      constructor
      · intro hnm
        by_contra hxs
        exact hnm ((htd x).mpr ⟨hx, hxs⟩)
      · intro hxs hmem
        exact ((htd x).mp hmem).2 hxs
    · intro i hi his
      have hlen : i < e.drop_log.length := by
        have := emptyIdx_lt e.drop_log 0 i (hwf1 ▸ hi)
        omega
      have hdropped : i ∈ selAt e.selection (computeDropIdx e.drop_log
          (e.selection.filter (fun x => decide (x ∉ s))) 0 0) 0 := by
        rw [hidx, selAt_posOf]
        exact List.mem_filter.mpr ⟨hi,
          decide_eq_true ((htd i).mpr ⟨hi, his⟩)⟩
      show (markLog e.drop_log (selAt e.selection (computeDropIdx e.drop_log
        (e.selection.filter (fun x => decide (x ∉ s))) 0 0) 0)
        "Inspection" 0).getD i [] = _
      rw [markLog_getD _ _ e.drop_log 0 i hlen, Nat.zero_add, if_pos hdropped]
    · intro i hlen hnot
      have hnd : i ∉ selAt e.selection (computeDropIdx e.drop_log
          (e.selection.filter (fun x => decide (x ∉ s))) 0 0) 0 := by
        rw [hidx, selAt_posOf]
        intro hmem
        obtain ⟨hi, hdec⟩ := List.mem_filter.mp hmem
        exact hnot ⟨hi, ((htd i).mp (of_decide_eq_true hdec)).2⟩
      show (markLog e.drop_log (selAt e.selection (computeDropIdx e.drop_log
        (e.selection.filter (fun x => decide (x ∉ s))) 0 0) 0)
        "Inspection" 0).getD i [] = _
      rw [markLog_getD _ _ e.drop_log 0 i hlen, Nat.zero_add, if_neg hnd]
  · intro hs
    have hprev : t'.selection.getD e.selection = e.selection := by
      rw [hsel', hs]; rfl
    rw [hprev]
    have htd0 : e.selection.filter (fun x => decide (x ∉ e.selection)) = [] := by
      apply List.filter_eq_nil_iff.mpr
      intro a ha
      simp [ha]
    rw [htd0]
    have hidx : computeDropIdx e.drop_log ([] : List Nat) 0 0 = [] := by
      rw [computeDropIdx_eq_posOf, posOf_nil]
    rw [hidx]
    refine ⟨?_, ?_, ?_⟩
    · show dropSel e.selection [] 0 = e.selection
      exact dropSel_nil _ 0
    · show dropSel e.events [] 0 = e.events
      exact dropSel_nil _ 0
    · show markLog e.drop_log (selAt e.selection [] 0) "Inspection" 0 = e.drop_log
      rw [selAt_nil, markLog_nil]

/-- A log file storing selection `[0, 2, 4]` (no snapshot yet) for `e`. -/
def storedSelLogs : Logs :=
  { raws := none
    epochs := some [("e", { bads := none, selection := some [0, 2, 4], params := none })]
    icas := none
    config := none
    extra := [] }

/-- A six-segment artifact currently exposing indices `[0, 1, 2, 3, 4, 5]`. -/
def sixEpochs : EpochsInst :=
  { fname := "e"
    bads := []
    tmin := 0
    tmax := 1
    selection := [0, 1, 2, 3, 4, 5]
    events := [10, 11, 12, 13, 14, 15]
    drop_log := [[], [], [], [], [], []] }

/-- Claim C6 (witness): with stored selection `[0, 2, 4]` and current indices
`[0..5]`, reconciliation keeps `[0, 2, 4]` and tags `1`, `3`, `5` with the
reason "Inspection". -/
theorem selection_subset_policy_witness :
    ∃ e' : EpochsInst,
      (reject "v1" "p" (some storedSelLogs) (Inst.epochs sixEpochs) false).1 =
        Except.ok (Inst.epochs e') ∧
      e'.selection = [0, 2, 4] ∧
      e'.drop_log.getD 1 [] = ["Inspection"] ∧
      e'.drop_log.getD 3 [] = ["Inspection"] ∧
      e'.drop_log.getD 5 [] = ["Inspection"] := by
  obtain ⟨e', hr, hsome, _⟩ := selection_subset_policy "v1" "p" (some storedSelLogs)
    sixEpochs
    { bads := none, selection := some [0, 2, 4], params := none }
    { bads := none, selection := some [0, 2, 4], params := some {
        tmin := 0, tmax := 1, events := [10, 11, 12, 13, 14, 15] } }
    rfl (by decide) rfl
  obtain ⟨hsel, hmark, _⟩ := hsome [0, 2, 4] rfl
  refine ⟨e', hr, ?_, ?_, ?_, ?_⟩
  · rw [hsel]
    decide
  · exact hmark 1 (by decide) (by decide)
  · exact hmark 3 (by decide) (by decide)
  · exact hmark 5 (by decide) (by decide)

theorem sp_save (git : String) (l : Logs) :
    snapshotsPreserved (some l) (some (save_log git l)) :=
  sp_of_maps (by simp [epochsMap, save_log, heal])
    (by simp [icasMap, save_log, heal])

/-- Claim C2: once a params snapshot is stored for a filename it is immutable —
no operation (update, reject, is_cleaned, read or save) ever overwrites or
alters it — and any later `update_log` or `reject` whose artifact disagrees
with the snapshot on a checked field fails with a parameter-mismatch error. -/
theorem params_snapshot_immutable (git pn : String) (d : Option Logs) :
    (∀ inst, snapshotsPreserved d (update_log git pn d inst).2) ∧
    (∀ inst req, snapshotsPreserved d (reject git pn d inst req).2) ∧
    (∀ f kind, snapshotsPreserved d (is_cleaned git d f kind).2) ∧
    snapshotsPreserved d (read_log git d).2 ∧
    (∀ l : Logs, snapshotsPreserved (some l) (some (save_log git l))) ∧
    (∀ (e : EpochsInst) (t : EpochsRecord) (p : EpochsParams),
      lookupK e.fname (epochsMap d) = some t → t.params = some p →
      ¬ epochsAgrees e t p →
      (∃ fl, (update_log git pn d (Inst.epochs e)).1 =
        Except.error (Err.paramMismatch fl)) ∧
      (∀ req, ∃ fl, (reject git pn d (Inst.epochs e) req).1 =
        Except.error (Err.paramMismatch fl))) ∧
    (∀ (i : IcaInst) (t : IcaRecord) (p : IcaParams),
      lookupK pn (icasMap d) = some t → t.params = some p → ¬ icaAgrees i p →
      (∃ fl, (update_log git pn d (Inst.ica i)).1 =
        Except.error (Err.paramMismatch fl)) ∧
      (∀ req, ∃ fl, (reject git pn d (Inst.ica i) req).1 =
        Except.error (Err.paramMismatch fl))) := by
  refine ⟨sp_update git pn d, sp_reject git pn d,
    fun f kind => sp_is_cleaned git f kind d,
    by rw [read_log_snd]; exact sp_healD git d,
    sp_save git, ?_, ?_⟩
  · intro e t p ht hp hnagr
    have hgd : (lookupK e.fname (epochsMap d)).getD ({} : EpochsRecord) = t := by
      rw [ht]; rfl
    obtain ⟨fl, hfl⟩ := (check_epochs_err_iff e t p hp).mpr hnagr
    have hc' : check_epochs_params e ((lookupK e.fname (epochsMap d)).getD {}) =
        Except.error (Err.paramMismatch fl) := by rw [hgd]; exact hfl
    constructor
    · exact ⟨fl, by rw [update_epochs_err_eq git pn d e _ hc']⟩
    · intro req
      have hg : (d.isNone && req) = false := by
        simp [isNone_false_of_epochs_lookup ht]
      exact ⟨fl, by rw [reject_epochs_err_eq git pn d e _ hc' req hg]⟩
  · intro i t p ht hp hnagr
    have hgd : (lookupK pn (icasMap d)).getD ({} : IcaRecord) = t := by
      rw [ht]; rfl
    obtain ⟨fl, hfl⟩ := (check_ica_err_iff i t p hp).mpr hnagr
    have hc' : check_ica_params i ((lookupK pn (icasMap d)).getD {}) =
        Except.error (Err.paramMismatch fl) := by rw [hgd]; exact hfl
    constructor
    · exact ⟨fl, by rw [update_ica_err_eq git pn d i _ hc']⟩
    · intro req
      have hg : (d.isNone && req) = false := by
        simp [isNone_false_of_icas_lookup ht]
      exact ⟨fl, by rw [reject_ica_err_eq git pn d i _ hc' req hg]⟩

/-- A log file holding `snapRecord` (with its params snapshot) for `e`. -/
def snapLogs : Logs :=
  { raws := none
    epochs := some [("e", snapRecord)]
    icas := none
    config := none
    extra := [] }

/-- An artifact re-cut with a different `tmin` than the stored snapshot. -/
def mismatchEpochs : EpochsInst :=
  { fname := "e"
    bads := []
    tmin := 5
    tmax := 1
    selection := [0, 2, 4]
    events := [10, 12, 14]
    drop_log := [[], [], [], [], []] }

/-- A stored ica snapshot disagreeing with `smallIca` on every field. -/
def otherIcaParams : IcaParams :=
  { ch_names := ["B"]
    fit_params := []
    n_components := 2
    highpass := 0
    lowpass := 30
    sfreq := 250 }

/-- A log file holding an ica record with the `otherIcaParams` snapshot. -/
def icaSnapLogs : Logs :=
  { raws := none
    epochs := none
    icas := some [("p", { exclude := some [1], params := some otherIcaParams })]
    config := none
    extra := [] }

/-- Claim C2 (witness): concrete mismatching epochs and ica artifacts make
both `update_log` and `reject` fail with a parameter-mismatch error. -/
theorem params_snapshot_immutable_witness :
    ((∃ fl, (update_log "v1" "p" (some snapLogs) (Inst.epochs mismatchEpochs)).1 =
        Except.error (Err.paramMismatch fl)) ∧
      (∃ fl, (reject "v1" "p" (some snapLogs) (Inst.epochs mismatchEpochs) false).1 =
        Except.error (Err.paramMismatch fl))) ∧
    ((∃ fl, (update_log "v1" "p" (some icaSnapLogs) (Inst.ica smallIca)).1 =
        Except.error (Err.paramMismatch fl)) ∧
      (∃ fl, (reject "v1" "p" (some icaSnapLogs) (Inst.ica smallIca) false).1 =
        Except.error (Err.paramMismatch fl))) := by
  have he := (params_snapshot_immutable "v1" "p" (some snapLogs)).2.2.2.2.2.1
    mismatchEpochs snapRecord snapParams rfl rfl (by decide)
  have hi := (params_snapshot_immutable "v1" "p" (some icaSnapLogs)).2.2.2.2.2.2
    smallIca { exclude := some [1], params := some otherIcaParams }
    otherIcaParams rfl rfl (by decide)
  exact ⟨⟨he.1, he.2 false⟩, ⟨hi.1, hi.2 false⟩⟩
